import Mathlib

/-!
Shallow embedding of the TheraTrack application (src/app.py): the relational
data model (one Lean structure per SQLite table) and the operations the
verified claims concern.  Dates and timestamps are modelled as naturals
(chronologically ordered keys); SQL result sets are Lean lists in row order.
-/

namespace TheraTrack

/-- Character-list test that `pat` occurs at the head of `l`. -/
def charsStartWith : List Char → List Char → Bool
  | [], _ => true
  | _ :: _, [] => false
  | a :: as, b :: bs => a == b && charsStartWith as bs

/-- Character-list test that `pat` occurs somewhere in the list. -/
def charsOccur (pat : List Char) : List Char → Bool
  | [] => pat.isEmpty
  | b :: bs => charsStartWith pat (b :: bs) || charsOccur pat bs

/-- Python `needle in hay` substring containment on strings. -/
def strContains (hay needle : String) : Bool :=
  charsOccur needle.toList hay.toList

/-- Row of the `users` table: username (primary key) and plaintext password. -/
structure UserRow where
  username : String
  password : String
deriving DecidableEq

/-- Row of the `goals` table (practice-wide goal templates). -/
structure GoalRow where
  id : Nat
  category : String
  description : String
deriving DecidableEq

/-- Row of the `client_goals` table; the schema declares
`UNIQUE(client_id, goal_description)`. -/
structure ClientGoalRow where
  id : Nat
  client_id : Nat
  goal_description : String
deriving DecidableEq

/-- Row of the `soap_notes` table. -/
structure SoapRow where
  id : Nat
  client_id : Nat
  date : Nat
  subjective : String
  objective : String
  assessment : String
  plan : String
deriving DecidableEq

/-- Row of the `diagnostic_history` table. -/
structure DiagRow where
  id : Nat
  client_id : Nat
  date : Nat
  diagnosis_code : String
  diagnosis_description : String
  notes : String
deriving DecidableEq

/-- Row of the `client_files` table; `filedata` holds the stored payload text. -/
structure FileRow where
  id : Nat
  client_id : Nat
  filename : String
  filetype : String
  filedata : String
  upload_date : Nat
deriving DecidableEq

/-- Row of the `therapist_checkin` table. -/
structure CheckinRow where
  id : Nat
  client_id : Nat
  date : Nat
  therapist_id : String
  energy_rating : Nat
  focus_rating : Nat
  notes : String
deriving DecidableEq

/-- Row of the `session_resources` table. -/
structure ResourceRow where
  id : Nat
  client_id : Nat
  title : String
  url : String
  notes : String
  therapist_id : String
deriving DecidableEq

/-- Row of the `sites` table. -/
structure SiteRow where
  id : Nat
  name : String
  address : String
  site_type : String
  therapist_id : String
deriving DecidableEq

/-- Row of the `session_plans` table. -/
structure PlanRow where
  id : Nat
  client_id : Nat
  date : Nat
  plan_intro : String
  plan_checkin : String
  plan_warmup : String
  plan_main : String
  plan_reflection : String
  plan_props : String
  plan_closing : String
  plan_notes : String
  therapist_id : String
deriving DecidableEq

/-- Row of the `sessions` table.  `goals_selected` is the comma-joined
denormalized goal list. -/
structure SessionRow where
  id : Nat
  client_id : Nat
  date : Nat
  session_number : Nat
  goals_selected : String
  progress_notes : String
  rating : Nat
  therapist_id : String
  session_time : String
deriving DecidableEq

/-- Row of the `clients` table (with the `status` and `site_id` columns the
startup migration adds). -/
structure ClientRow where
  id : Nat
  name : String
  dob : String
  diagnosis : String
  history : String
  status : String
  site_id : Option Nat
  therapist_id : String
deriving DecidableEq

/-- Whole-database state: one list per table, in row (insertion) order. -/
structure Db where
  users : List UserRow := []
  goals : List GoalRow := []
  client_goals : List ClientGoalRow := []
  soap_notes : List SoapRow := []
  diagnostic_history : List DiagRow := []
  client_files : List FileRow := []
  therapist_checkin : List CheckinRow := []
  session_resources : List ResourceRow := []
  sites : List SiteRow := []
  session_plans : List PlanRow := []
  sessions : List SessionRow := []
  clients : List ClientRow := []
deriving DecidableEq

/-- Stable insertion step for a descending sort keyed by `key`: the new
element goes before the first strictly smaller key, after any equal keys. -/
def ordInsertDesc {α : Type} (key : α → Nat) (x : α) : List α → List α
  | [] => [x]
  | y :: ys => if key y ≤ key x then x :: y :: ys else y :: ordInsertDesc key x ys

/-- Stable descending sort by `key` (models `ORDER BY key DESC` with ties in
row order). -/
def sortDescBy {α : Type} (key : α → Nat) : List α → List α
  | [] => []
  | x :: xs => ordInsertDesc key x (sortDescBy key xs)

/-- Joined row produced by the dashboard risk query
`SELECT c.name, s.assessment, s.date, c.id FROM soap_notes s JOIN clients c`. -/
structure RiskRow where
  name : String
  assessment : String
  date : Nat
  cid : Nat
deriving DecidableEq

/-- Projection of a (client, soap-note) pair onto the risk-query columns. -/
def riskRowOf (c : ClientRow) (s : SoapRow) : RiskRow :=
  ⟨c.name, s.assessment, s.date, c.id⟩

/-- The dashboard risk query before sorting: every (note, client) join pair
for the logged-in therapist, notes in row order. -/
def joinedRiskRows (db : Db) (t : String) : List RiskRow :=
  db.soap_notes.flatMap (fun s =>
    (db.clients.filter (fun c => c.id == s.client_id && c.therapist_id == t)).map
      (fun c => riskRowOf c s))

/-- Recursion core of the name deduplication, structurally indexed by a
fuel bound on the list length (filtering never lengthens the list). -/
def dedupByNameFuel : Nat → List RiskRow → List RiskRow
  | 0, _ => []
  | _ + 1, [] => []
  | n + 1, x :: xs => x :: dedupByNameFuel n (xs.filter (fun y => y.name != x.name))

/-- Pandas `drop_duplicates(subset=[name], keep=first)`: keep the first row
of each client name, preserving order. -/
def dedupByName (l : List RiskRow) : List RiskRow :=
  dedupByNameFuel l.length l

/-- The fixed high-risk keyword list of the dashboard scanner. -/
def riskKeywords : List String :=
  [("Suicidal Ideation"), ("Homicidal Ideation"), ("Self-Harm Risk"), ("Grave Disability")]

/-- The per-note risk test
`any(risk in x for risk in risk_keywords) if x else False`. -/
def riskFlag (a : String) : Bool :=
  a != "" && riskKeywords.any (fun k => strContains a k)

/-- The rows the scanner considers: newest-first join, deduplicated by
client name. -/
def riskConsidered (db : Db) (t : String) : List RiskRow :=
  dedupByName (sortDescBy (fun r => r.date) (joinedRiskRows db t))

/-- The dashboard scan output: considered rows whose assessment matches a
risk keyword. -/
def riskScan (db : Db) (t : String) : List RiskRow :=
  (riskConsidered db t).filter (fun r => riskFlag r.assessment)

/-- All soap notes of one client, in row order. -/
def clientNotes (notes : List SoapRow) (cid : Nat) : List SoapRow :=
  notes.filter (fun s => s.client_id == cid)

/-- The most recent note of a client: maximal date, ties resolved to the
earliest row in insertion order. -/
def mostRecentNote (notes : List SoapRow) (cid : Nat) : Option SoapRow :=
  (clientNotes notes cid).find?
    (fun s => (clientNotes notes cid).all (fun u => decide (u.date ≤ s.date)))

/-- The client-profile DANGER ZONE delete: nine DELETE statements, one per
table holding rows of the client, plus the clients row itself. -/
def deleteClient (db : Db) (cid : Nat) : Db :=
  { db with
    clients := db.clients.filter (fun c => c.id != cid)
    sessions := db.sessions.filter (fun s => s.client_id != cid)
    soap_notes := db.soap_notes.filter (fun s => s.client_id != cid)
    client_goals := db.client_goals.filter (fun s => s.client_id != cid)
    diagnostic_history := db.diagnostic_history.filter (fun s => s.client_id != cid)
    client_files := db.client_files.filter (fun s => s.client_id != cid)
    therapist_checkin := db.therapist_checkin.filter (fun s => s.client_id != cid)
    session_resources := db.session_resources.filter (fun s => s.client_id != cid)
    session_plans := db.session_plans.filter (fun s => s.client_id != cid) }

/-- Python single-character split: break the character list at every
occurrence of the separator. -/
def splitChars (sep : Char) : List Char → List (List Char)
  | [] => [[]]
  | c :: cs =>
    if c == sep then [] :: splitChars sep cs
    else
      match splitChars sep cs with
      | [] => [[c]]
      | t :: ts => (c :: t) :: ts

/-- Python strip(): drop leading and trailing whitespace characters. -/
def trimChars (cs : List Char) : List Char :=
  ((cs.dropWhile Char.isWhitespace).reverse.dropWhile Char.isWhitespace).reverse

/-- Tokenization of one comma-joined goal string: split on commas, strip
each piece, keep the nonempty results. -/
def goalTokens (s : String) : List String :=
  ((splitChars (',') s.toList).map (fun cs => String.mk (trimChars cs))).filter
    (fun g => g != "")

/-- Recursion core of the distinct-value listing, structurally indexed by a
fuel bound on the list length. -/
def uniqueFirstFuel : Nat → List String → List String
  | 0, _ => []
  | _ + 1, [] => []
  | n + 1, x :: xs => x :: uniqueFirstFuel n (xs.filter (fun y => y != x))

/-- First-appearance-ordered distinct values of a string list. -/
def uniqueFirst (l : List String) : List String :=
  uniqueFirstFuel l.length l

/-- Pandas `value_counts()`: occurrence counts of the distinct values,
sorted by count in descending order. -/
def valueCounts (l : List String) : List (String × Nat) :=
  sortDescBy (fun p => p.2) ((uniqueFirst l).map (fun v => (v, l.count v)))

/-- The analytics goal-frequency aggregation over the filtered sessions:
split each goal string on commas, trim, drop empties, count. -/
def goalFrequency (goalStrs : List String) : List (String × Nat) :=
  valueCounts (goalStrs.flatMap goalTokens)

/-- The Log New Diagnosis handler: requires nonempty code and description,
then inserts one `diagnostic_history` row (and touches no other table). -/
def logDiagnosis (db : Db) (nextId cid dt : Nat) (code desc notes : String) : Db :=
  if code != "" && desc != "" then
    { db with diagnostic_history :=
        db.diagnostic_history ++ [⟨nextId, cid, dt, code, desc, notes⟩] }
  else db

/-- The Goal Management delete: `DELETE FROM goals WHERE description=?`
(and no other statement). -/
def deleteGoalTemplate (db : Db) (desc : String) : Db :=
  { db with goals := db.goals.filter (fun g => g.description != desc) }

/-- SQLite error relevant to the modelled handlers: an IntegrityError from a
violated UNIQUE constraint. -/
inductive DbErr where
  | dup
deriving DecidableEq

/-- Outcome of one button handler: either the script completes and shows a
message (`handled`), or an exception escapes the handler (`raised`).  Either
way the resulting table state is carried. -/
inductive ActionOutcome (σ : Type) where
  | handled (state : σ) (message : String)
  | raised (state : σ) (e : DbErr)
deriving DecidableEq

/-- Whether the outcome was a normally surfaced message. -/
def isHandled {σ : Type} : ActionOutcome σ → Bool
  | .handled _ _ => true
  | .raised _ _ => false

/-- The table state after the handler ran. -/
def outcomeState {σ : Type} : ActionOutcome σ → σ
  | .handled st _ => st
  | .raised st _ => st

/-- INSERT into `client_goals`: the UNIQUE(client_id, goal_description)
constraint rejects an existing pair with an IntegrityError. -/
def insertClientGoalRow (tbl : List ClientGoalRow) (nextId cid : Nat) (d : String) :
    Except DbErr (List ClientGoalRow) :=
  if tbl.any (fun r => r.client_id == cid && r.goal_description == d) then
    Except.error DbErr.dup
  else
    Except.ok (tbl ++ [⟨nextId, cid, d⟩])

/-- The Assign Goal to Client button handler: it runs the insert with no
try/except, so an IntegrityError escapes. -/
def assignGoalAction (tbl : List ClientGoalRow) (nextId cid : Nat) (d : String) :
    ActionOutcome (List ClientGoalRow) :=
  match insertClientGoalRow tbl nextId cid d with
  | Except.ok t => ActionOutcome.handled t ("Goal assigned.")
  | Except.error e => ActionOutcome.raised tbl e

/-- INSERT into `users`: the primary key rejects an existing username with
an IntegrityError. -/
def insertUserRow (users : List UserRow) (u p : String) :
    Except DbErr (List UserRow) :=
  if users.any (fun r => r.username == u) then Except.error DbErr.dup
  else Except.ok (users ++ [⟨u, p⟩])

/-- The Create Account button handler: blank check, then the insert inside
try/except sqlite3.IntegrityError, which surfaces a taken-username message. -/
def createAccountAction (users : List UserRow) (u p : String) :
    ActionOutcome (List UserRow) :=
  if u == "" || p == "" then
    ActionOutcome.handled users ("Username and Password cannot be empty.")
  else
    match insertUserRow users u p with
    | Except.ok t => ActionOutcome.handled t ("Account created. Please log in.")
    | Except.error _ => ActionOutcome.handled users ("Username already taken.")

/-- The login query
`SELECT * FROM users WHERE username=? AND password=?` with `fetchone()`. -/
def loginQuery (users : List UserRow) (u p : String) : Option UserRow :=
  (users.filter (fun r => r.username == u && r.password == p)).head?

/-- The Login button handler: on a fetched row the session identity is set
to the entered username, otherwise login fails. -/
def loginAttempt (users : List UserRow) (u p : String) : Option String :=
  match loginQuery users u p with
  | some _ => some u
  | none => none

/-- An uploaded file as streamlit hands it to the handler: its `size`
attribute is the payload byte count; the stored text encoding of the payload
is kept abstract in `data`. -/
structure Upload where
  name : String
  filetype : String
  size : Nat
  data : String
deriving DecidableEq

/-- The Files/Art upload handler: rejects when `size > 2 * 1024 * 1024`
before any write, otherwise inserts one `client_files` row. -/
def uploadClientFile (files : List FileRow) (nextId cid : Nat) (up : Upload)
    (today : Nat) : Except String (List FileRow) :=
  if up.size > 2 * 1024 * 1024 then
    Except.error ("File size exceeds 2MB limit.")
  else
    Except.ok (files ++ [⟨nextId, cid, up.name, up.filetype, up.data, today⟩])

/-- The New Session client query:
`SELECT id, name, status FROM clients WHERE therapist_id=? AND status=?`
restricted to status Active. -/
def activeClients (db : Db) (t : String) : List ClientRow :=
  db.clients.filter (fun c => c.therapist_id == t && c.status == ("Active"))

/-- Python `dict(zip(names, ids))[nm]`: the last binding of a name wins. -/
def clientMapLookup (cs : List ClientRow) (nm : String) : Option Nat :=
  cs.foldl (fun acc c => if c.name == nm then some c.id else acc) none

/-- The Save Session handler: resolves the selected participant name through
the Active-only client map, then inserts one `sessions` row with the
comma-joined selected goals. -/
def saveSession (db : Db) (nextId : Nat) (t nm : String) (d : Nat)
    (timeStr : String) (num rating : Nat) (goalsSel : List String)
    (notes : String) : Option Db :=
  match clientMapLookup (activeClients db t) nm with
  | none => none
  | some cid =>
      some { db with sessions := db.sessions ++
        [⟨nextId, cid, d, num, String.intercalate (", ") goalsSel, notes, rating, t, timeStr⟩] }

/-- Fixture: two distinct clients of therapist t share the name Bob; the
newer note (client 1) is clean, the older note (client 2) is flagged. -/
def dbScanCex : Db :=
  { clients := [⟨1, ("Bob"), ("2000-01-01"), (""), (""), ("Active"), none, ("t")⟩,
                ⟨2, ("Bob"), ("2001-02-02"), (""), (""), ("Active"), none, ("t")⟩]
    soap_notes := [⟨1, 1, 5, (""), (""), ("Risk: No Current Risk | Analysis: ok"), ("")⟩,
                   ⟨2, 2, 3, (""), (""), ("Risk: Suicidal Ideation | Analysis: acute"), ("")⟩] }

/-- Fixture: one client with an older flagged note and a newer clean note. -/
def dbScanW : Db :=
  { clients := [⟨1, ("Bob"), ("2000-01-01"), (""), (""), ("Active"), none, ("t")⟩]
    soap_notes := [⟨1, 1, 3, (""), (""), ("Risk: Self-Harm Risk | Analysis: x"), ("")⟩,
                   ⟨2, 1, 5, (""), (""), ("Risk: No Current Risk | Analysis: ok"), ("")⟩] }

/-- Fixture: one client whose stored diagnosis field reads Old. -/
def dbDiag : Db :=
  { clients := [⟨1, ("Bob"), ("2000-01-01"), ("Old"), (""), ("Active"), none, ("t")⟩] }

/-- Fixture: one goal template G that one client-goal assignment references. -/
def dbTmpl : Db :=
  { goals := [⟨1, ("Cat"), ("G")⟩]
    client_goals := [⟨1, 1, ("G")⟩] }

/-- Fixture: one Active client of therapist t. -/
def dbActive : Db :=
  { clients := [⟨1, ("Bob"), ("2000-01-01"), (""), (""), ("Active"), none, ("t")⟩] }

/-- Fixture: `dbActive` after one saved session for client 1. -/
def dbActiveAfter : Db :=
  { dbActive with sessions := [⟨1, 1, 3, 1, ("G"), ("n"), 8, ("t"), ("10:00")⟩] }

/-- Fixture: two clients of therapist t with rows across the dependent
tables, exercising the cascade delete. -/
def dbTwoClients : Db :=
  { clients := [⟨1, ("Bob"), ("2000-01-01"), (""), (""), ("Active"), none, ("t")⟩,
                ⟨2, ("Ann"), ("2001-02-02"), (""), (""), ("Active"), none, ("t")⟩]
    sessions := [⟨1, 1, 3, 1, ("G"), ("n"), 8, ("t"), ("10:00")⟩,
                 ⟨2, 2, 4, 1, ("G"), ("n"), 7, ("t"), ("11:00")⟩]
    soap_notes := [⟨1, 1, 3, (""), (""), ("Risk: | ok"), ("")⟩]
    client_goals := [⟨1, 1, ("G")⟩, ⟨2, 2, ("G")⟩] }

/-!
Helper lemmas shared by the claim theorems.
-/

/-- Helper: a foldl client-map lookup that returns an id found its binding
in the list (or already held it in the accumulator). -/
theorem clientMapLookup_aux (nm : String) (cs : List ClientRow) (acc : Option Nat) (i : Nat)
    (h : cs.foldl (fun a c => if c.name == nm then some c.id else a) acc = some i) :
    (∃ c, c ∈ cs ∧ c.id = i ∧ c.name = nm) ∨ acc = some i := by
  induction cs generalizing acc with
  | nil => exact Or.inr h
  | cons c rest ih =>
    rcases ih _ h with h1 | h2
    · obtain ⟨c', hm, hi, hn⟩ := h1
      exact Or.inl ⟨c', List.mem_cons_of_mem _ hm, hi, hn⟩
    · have h3 : (if (c.name == nm) = true then some c.id else acc) = some i := h2
      by_cases hc : (c.name == nm) = true
      · rw [if_pos hc] at h3
        refine Or.inl ⟨c, List.mem_cons_self c rest, ?_, ?_⟩
        · exact Option.some.inj h3
        · exact beq_iff_eq.mp hc
      · rw [if_neg hc] at h3
        exact Or.inr h3

/-- Helper: a successful client-map lookup names an element of the list. -/
theorem clientMapLookup_mem (cs : List ClientRow) (nm : String) (i : Nat)
    (h : clientMapLookup cs nm = some i) :
    ∃ c, c ∈ cs ∧ c.id = i ∧ c.name = nm := by
  rcases clientMapLookup_aux nm cs none i h with h1 | h2
  · exact h1
  · cases h2

/-- Helper: membership in an ordered insert. -/
theorem mem_ordInsertDesc {α : Type} (key : α → Nat) (x : α) (l : List α) (a : α) :
    a ∈ ordInsertDesc key x l ↔ a = x ∨ a ∈ l := by
  induction l with
  | nil => simp [ordInsertDesc]
  | cons y ys ih =>
    by_cases h : key y ≤ key x
    · simp [ordInsertDesc, if_pos h]
    · simp only [ordInsertDesc, if_neg h, List.mem_cons, ih]
      tauto

/-- Helper: membership in the stable descending sort. -/
theorem mem_sortDescBy {α : Type} (key : α → Nat) (l : List α) (a : α) :
    a ∈ sortDescBy key l ↔ a ∈ l := by
  induction l with
  | nil => simp [sortDescBy]
  | cons x xs ih => simp [sortDescBy, mem_ordInsertDesc, ih]

/-- Helper: ordered insertion preserves descending sortedness. -/
theorem pairwise_ordInsertDesc {α : Type} (key : α → Nat) (x : α) (l : List α)
    (h : l.Pairwise (fun a b => key b ≤ key a)) :
    (ordInsertDesc key x l).Pairwise (fun a b => key b ≤ key a) := by
  induction l with
  | nil => simp [ordInsertDesc]
  | cons y ys ih =>
    rw [List.pairwise_cons] at h
    by_cases hk : key y ≤ key x
    · rw [ordInsertDesc, if_pos hk]
      refine List.pairwise_cons.mpr ⟨?_, List.pairwise_cons.mpr h⟩
      intro b hb
      rcases List.mem_cons.mp hb with rfl | hb2
      · exact hk
      · exact le_trans (h.1 b hb2) hk
    · rw [ordInsertDesc, if_neg hk]
      refine List.pairwise_cons.mpr ⟨?_, ih h.2⟩
      intro b hb
      rcases (mem_ordInsertDesc key x ys b).mp hb with rfl | hb2
      · exact le_of_lt (Nat.lt_of_not_le hk)
      · exact h.1 b hb2

/-- Helper: the stable descending sort is sorted by its key. -/
theorem sorted_sortDescBy {α : Type} (key : α → Nat) (l : List α) :
    (sortDescBy key l).Pairwise (fun a b => key b ≤ key a) := by
  induction l with
  | nil => simp [sortDescBy]
  | cons x xs ih => exact pairwise_ordInsertDesc key x _ ih

/-- Helper: inserting above every key is a cons. -/
theorem ordInsertDesc_eq_cons {α : Type} (key : α → Nat) (x : α) (l : List α)
    (h : ∀ b ∈ l, key b ≤ key x) : ordInsertDesc key x l = x :: l := by
  cases l with
  | nil => rfl
  | cons y ys => rw [ordInsertDesc, if_pos (h y (List.mem_cons_self y ys))]

/-- Helper: filtering drops a freshly inserted element the filter rejects. -/
theorem filter_ordInsertDesc_neg {α : Type} (key : α → Nat) (p : α → Bool) (x : α)
    (l : List α) (hp : p x = false) :
    (ordInsertDesc key x l).filter p = l.filter p := by
  induction l with
  | nil =>
    rw [ordInsertDesc]
    simp [List.filter_cons, hp]
  | cons y ys ih =>
    by_cases hk : key y ≤ key x
    · rw [ordInsertDesc, if_pos hk]
      simp [List.filter_cons, hp]
    · rw [ordInsertDesc, if_neg hk]
      simp [List.filter_cons, ih]

/-- Helper: filtering a sorted list commutes with inserting a kept element. -/
theorem filter_ordInsertDesc_pos {α : Type} (key : α → Nat) (p : α → Bool) (x : α)
    (l : List α) (hp : p x = true) (hs : l.Pairwise (fun a b => key b ≤ key a)) :
    (ordInsertDesc key x l).filter p = ordInsertDesc key x (l.filter p) := by
  induction l with
  | nil =>
    simp only [List.filter_nil]
    rw [ordInsertDesc]
    simp [List.filter_cons, hp]
  | cons y ys ih =>
    rw [List.pairwise_cons] at hs
    by_cases hk : key y ≤ key x
    · rw [ordInsertDesc, if_pos hk]
      by_cases hy : p y = true
      · simp only [List.filter_cons, hp, hy, if_true]
        rw [ordInsertDesc, if_pos hk]
      · have hy' : p y = false := by simpa using hy
        have hall : ∀ b ∈ ys.filter p, key b ≤ key x :=
          fun b hb => le_trans (hs.1 b (List.mem_of_mem_filter hb)) hk
        simp only [List.filter_cons, hp, hy', if_true, Bool.false_eq_true, if_false]
        rw [ordInsertDesc_eq_cons key x _ hall]
    · rw [ordInsertDesc, if_neg hk]
      by_cases hy : p y = true
      · simp only [List.filter_cons, hy, if_true]
        rw [ih hs.2, ordInsertDesc, if_neg hk]
      · have hy' : p y = false := by simpa using hy
        simp only [List.filter_cons, hy', Bool.false_eq_true, if_false]
        exact ih hs.2

/-- Helper: filtering commutes with the stable descending sort. -/
theorem filter_sortDescBy {α : Type} (key : α → Nat) (p : α → Bool) (l : List α) :
    (sortDescBy key l).filter p = sortDescBy key (l.filter p) := by
  induction l with
  | nil => rfl
  | cons x xs ih =>
    by_cases hp : p x = true
    · have h1 : (x :: xs).filter p = x :: xs.filter p := by simp [List.filter_cons, hp]
      rw [sortDescBy, filter_ordInsertDesc_pos key p x _ hp (sorted_sortDescBy key xs), ih,
        h1, sortDescBy]
    · have hp' : p x = false := by simpa using hp
      have h1 : (x :: xs).filter p = xs.filter p := by simp [List.filter_cons, hp']
      rw [sortDescBy, filter_ordInsertDesc_neg key p x _ hp', ih, h1]

/-- Helper: find? is the head of the filtered list. -/
theorem find_eq_filterHead {α : Type} (p : α → Bool) (l : List α) :
    l.find? p = (l.filter p).head? := by
  induction l with
  | nil => rfl
  | cons x xs ih =>
    by_cases hp : p x = true
    · rw [List.find?_cons_of_pos _ hp]
      simp [List.filter_cons, hp]
    · rw [List.find?_cons_of_neg _ hp, List.filter_cons, if_neg hp, ih]

/-- Helper: find? only depends on predicate values on the list. -/
theorem find_congrOn {α : Type} (p q : α → Bool) (l : List α)
    (h : ∀ a ∈ l, p a = q a) : l.find? p = l.find? q := by
  induction l with
  | nil => rfl
  | cons x xs ih =>
    have hx := h x (List.mem_cons_self x xs)
    by_cases hq : q x = true
    · have hp : p x = true := by rw [hx, hq]
      rw [List.find?_cons_of_pos _ hp, List.find?_cons_of_pos _ hq]
    · have hp : ¬p x = true := by rw [hx]; exact hq
      rw [List.find?_cons_of_neg _ hp, List.find?_cons_of_neg _ hq]
      exact ih (fun a ha => h a (List.mem_cons_of_mem _ ha))

/-- Helper: find? passes through a filter the predicate entails. -/
theorem find_filter {α : Type} (p q : α → Bool) (l : List α)
    (h : ∀ a, p a = true → q a = true) : (l.filter q).find? p = l.find? p := by
  induction l with
  | nil => rfl
  | cons x xs ih =>
    by_cases hq : q x = true
    · rw [List.filter_cons, if_pos hq]
      by_cases hp : p x = true
      · rw [List.find?_cons_of_pos _ hp, List.find?_cons_of_pos _ hp]
      · rw [List.find?_cons_of_neg _ hp, List.find?_cons_of_neg _ hp]
        exact ih
    · have hpx : ¬p x = true := fun hpc => hq (h x hpc)
      rw [List.filter_cons, if_neg hq, ih, List.find?_cons_of_neg _ hpx]

/-- Helper: the head of the descending sort is the first element of the
original list carrying a maximal key. -/
theorem head_sortDescBy {α : Type} (key : α → Nat) (l : List α) :
    (sortDescBy key l).head? =
      l.find? (fun a => l.all (fun b => decide (key b ≤ key a))) := by
  induction l with
  | nil => rfl
  | cons x xs ih =>
    by_cases hall : ∀ b ∈ xs, key b ≤ key x
    · have hx : ((x :: xs).all (fun b => decide (key b ≤ key x))) = true := by
        simp only [List.all_eq_true, decide_eq_true_eq]
        intro b hb
        rcases List.mem_cons.mp hb with rfl | hb2
        · exact le_refl _
        · exact hall b hb2
      rw [List.find?_cons, hx]
      show (sortDescBy key (x :: xs)).head? = some x
      rw [sortDescBy]
      cases hs : sortDescBy key xs with
      | nil => rfl
      | cons y ys =>
        have hy : y ∈ xs := (mem_sortDescBy key xs y).mp (by rw [hs]; exact List.mem_cons_self y ys)
        rw [ordInsertDesc, if_pos (hall y hy)]
        rfl
    · have ⟨u, hu, hku⟩ : ∃ u ∈ xs, ¬ key u ≤ key x := by
        push_neg at hall
        obtain ⟨u, hu, h2⟩ := hall
        exact ⟨u, hu, Nat.not_le.mpr h2⟩
      have hx : ((x :: xs).all (fun b => decide (key b ≤ key x))) = false := by
        cases hc : (x :: xs).all (fun b => decide (key b ≤ key x)) with
        | false => rfl
        | true =>
          have := List.all_eq_true.mp hc u (List.mem_cons_of_mem _ hu)
          exact absurd (of_decide_eq_true this) hku
      rw [List.find?_cons, hx]
      show (sortDescBy key (x :: xs)).head? =
        xs.find? (fun a => (x :: xs).all (fun b => decide (key b ≤ key a)))
      have hcg : xs.find? (fun a => (x :: xs).all (fun b => decide (key b ≤ key a))) =
          xs.find? (fun a => xs.all (fun b => decide (key b ≤ key a))) := by
        apply find_congrOn
        intro a _
        cases hq : xs.all (fun b => decide (key b ≤ key a)) with
        | false => simp [List.all_cons, hq]
        | true =>
          have h1 : key u ≤ key a := of_decide_eq_true (List.all_eq_true.mp hq u hu)
          have h2 : key x ≤ key a := le_trans (le_of_lt (Nat.lt_of_not_le hku)) h1
          simp [List.all_cons, hq, h2]
      rw [hcg, ← ih, sortDescBy]
      cases hs : sortDescBy key xs with
      | nil =>
        exfalso
        have hmem : u ∈ sortDescBy key xs := (mem_sortDescBy key xs u).mpr hu
        rw [hs] at hmem
        cases hmem
      | cons y ys =>
        have hsorted := sorted_sortDescBy key xs
        rw [hs, List.pairwise_cons] at hsorted
        have hyu : key u ≤ key y := by
          have humem : u ∈ y :: ys := by
            rw [← hs]; exact (mem_sortDescBy key xs u).mpr hu
          rcases List.mem_cons.mp humem with rfl | h2
          · exact le_refl _
          · exact hsorted.1 u h2
        have hnk : ¬ key y ≤ key x := fun hcon =>
          hku (le_trans hyu hcon)
        rw [ordInsertDesc, if_neg hnk]
        rfl

/-- Helper: ordered insertion commutes with a key-preserving map. -/
theorem map_ordInsertDesc {α β : Type} (key1 : α → Nat) (key2 : β → Nat) (g : α → β)
    (hk : ∀ a, key2 (g a) = key1 a) (x : α) (l : List α) :
    ordInsertDesc key2 (g x) (l.map g) = (ordInsertDesc key1 x l).map g := by
  induction l with
  | nil => rfl
  | cons y ys ih =>
    simp only [List.map_cons]
    by_cases h1 : key1 y ≤ key1 x
    · have h2 : key2 (g y) ≤ key2 (g x) := by rw [hk, hk]; exact h1
      rw [ordInsertDesc, if_pos h2, ordInsertDesc, if_pos h1]
      simp
    · have h2 : ¬ key2 (g y) ≤ key2 (g x) := by rw [hk, hk]; exact h1
      rw [ordInsertDesc, if_neg h2, ordInsertDesc, if_neg h1]
      simp [ih]

/-- Helper: the descending sort commutes with a key-preserving map. -/
theorem map_sortDescBy {α β : Type} (key1 : α → Nat) (key2 : β → Nat) (g : α → β)
    (hk : ∀ a, key2 (g a) = key1 a) (l : List α) :
    sortDescBy key2 (l.map g) = (sortDescBy key1 l).map g := by
  induction l with
  | nil => rfl
  | cons x xs ih =>
    simp only [List.map_cons, sortDescBy]
    rw [ih, map_ordInsertDesc key1 key2 g hk]

/-- Helper: the deduplication fuel is irrelevant above the list length. -/
theorem dedupByNameFuel_congr : ∀ (n m : Nat) (l : List RiskRow),
    l.length ≤ n → l.length ≤ m → dedupByNameFuel n l = dedupByNameFuel m l := by
  intro n
  induction n with
  | zero =>
    intro m l hn _
    have hl : l = [] := List.length_eq_zero.mp (Nat.le_zero.mp hn)
    subst hl
    cases m <;> rfl
  | succ n ih =>
    intro m l hn hm
    cases l with
    | nil => cases m <;> rfl
    | cons x xs =>
      cases m with
      | zero => exact absurd hm (by simp)
      | succ m' =>
        simp only [dedupByNameFuel]
        congr 1
        have hlen := List.length_filter_le (fun y => y.name != x.name) xs
        have hn' : xs.length ≤ n := Nat.le_of_succ_le_succ (by simpa using hn)
        have hm' : xs.length ≤ m' := Nat.le_of_succ_le_succ (by simpa using hm)
        exact ih m' _ (le_trans hlen hn') (le_trans hlen hm')

/-- Helper: the one-step unfolding of the name deduplication. -/
theorem dedupByName_cons (x : RiskRow) (xs : List RiskRow) :
    dedupByName (x :: xs) = x :: dedupByName (xs.filter (fun y => y.name != x.name)) := by
  unfold dedupByName
  simp only [List.length_cons, dedupByNameFuel]
  congr 1
  exact dedupByNameFuel_congr xs.length (xs.filter (fun y => y.name != x.name)).length _
    (List.length_filter_le _ _) (le_refl _)

/-- Helper: deduplicated rows come from the original list. -/
theorem mem_dedupByName : ∀ (l : List RiskRow) (a : RiskRow), a ∈ dedupByName l → a ∈ l
  | [], _, h => by cases h
  | x :: xs, a, h => by
    rw [dedupByName_cons] at h
    rcases List.mem_cons.mp h with rfl | h2
    · exact List.mem_cons_self _ _
    · exact List.mem_cons_of_mem _
        (List.mem_of_mem_filter (mem_dedupByName _ a h2))
termination_by l _ _ => l.length
decreasing_by
  simp_wf
  exact Nat.lt_succ_of_le (List.length_filter_le _ _)

/-- Helper: per name, deduplication keeps exactly the first matching row. -/
theorem dedupByName_filter : ∀ (l : List RiskRow) (n : String),
    (dedupByName l).filter (fun r => r.name == n) =
      (l.find? (fun r => r.name == n)).toList
  | [], n => rfl
  | x :: xs, n => by
    have ih := dedupByName_filter (xs.filter (fun y => y.name != x.name)) n
    rw [dedupByName_cons]
    by_cases hx : (x.name == n) = true
    · have hxn : x.name = n := beq_iff_eq.mp hx
      have hnil : (dedupByName (xs.filter (fun y => y.name != x.name))).filter
          (fun r => r.name == n) = [] := by
        rw [List.filter_eq_nil_iff]
        intro a ha
        have h2 := List.mem_filter.mp (mem_dedupByName _ a ha)
        have h3 : a.name ≠ x.name := by simpa using h2.2
        simp only [beq_iff_eq]
        rw [← hxn]
        exact h3
      rw [List.filter_cons, if_pos hx, hnil, List.find?_cons, hx]
      rfl
    · have hx' : (x.name == n) = false := by simpa using hx
      rw [List.filter_cons, if_neg hx, ih, List.find?_cons, hx']
      show (List.find? (fun r => r.name == n) (xs.filter (fun y => y.name != x.name))).toList =
        (List.find? (fun r => r.name == n) xs).toList
      congr 1
      apply find_filter
      intro a hpa
      have han : a.name = n := beq_iff_eq.mp hpa
      have hxn : x.name ≠ n := fun hcon => hx (beq_iff_eq.mpr hcon)
      simp only [bne_iff_ne, ne_eq]
      rw [han]
      exact fun hcon => hxn hcon.symm
termination_by l _ => l.length
decreasing_by
  simp_wf
  exact Nat.lt_succ_of_le (List.length_filter_le _ _)

/-- Helper: the distinct-value fuel is irrelevant above the list length. -/
theorem uniqueFirstFuel_congr : ∀ (n m : Nat) (l : List String),
    l.length ≤ n → l.length ≤ m → uniqueFirstFuel n l = uniqueFirstFuel m l := by
  intro n
  induction n with
  | zero =>
    intro m l hn _
    have hl : l = [] := List.length_eq_zero.mp (Nat.le_zero.mp hn)
    subst hl
    cases m <;> rfl
  | succ n ih =>
    intro m l hn hm
    cases l with
    | nil => cases m <;> rfl
    | cons x xs =>
      cases m with
      | zero => exact absurd hm (by simp)
      | succ m' =>
        simp only [uniqueFirstFuel]
        congr 1
        have hlen := List.length_filter_le (fun y => y != x) xs
        have hn' : xs.length ≤ n := Nat.le_of_succ_le_succ (by simpa using hn)
        have hm' : xs.length ≤ m' := Nat.le_of_succ_le_succ (by simpa using hm)
        exact ih m' _ (le_trans hlen hn') (le_trans hlen hm')

/-- Helper: the one-step unfolding of the distinct-value listing. -/
theorem uniqueFirst_cons (x : String) (xs : List String) :
    uniqueFirst (x :: xs) = x :: uniqueFirst (xs.filter (fun y => y != x)) := by
  unfold uniqueFirst
  simp only [List.length_cons, uniqueFirstFuel]
  congr 1
  exact uniqueFirstFuel_congr xs.length (xs.filter (fun y => y != x)).length _
    (List.length_filter_le _ _) (le_refl _)

/-- Helper: names unique in the first-appearance list. -/
theorem mem_uniqueFirst : ∀ (l : List String) (v : String), v ∈ uniqueFirst l ↔ v ∈ l
  | [], v => Iff.rfl
  | x :: xs, v => by
    have ih := mem_uniqueFirst (xs.filter (fun y => y != x)) v
    rw [uniqueFirst_cons]
    constructor
    · intro h
      rcases List.mem_cons.mp h with rfl | h2
      · exact List.mem_cons_self _ _
      · exact List.mem_cons_of_mem _ (List.mem_of_mem_filter (ih.mp h2))
    · intro h
      rcases List.mem_cons.mp h with rfl | h2
      · exact List.mem_cons_self _ _
      · by_cases hv : v = x
        · rw [hv]; exact List.mem_cons_self _ _
        · refine List.mem_cons_of_mem _ (ih.mpr ?_)
          exact List.mem_filter.mpr ⟨h2, by simpa using hv⟩
termination_by l _ => l.length
decreasing_by
  simp_wf
  exact Nat.lt_succ_of_le (List.length_filter_le _ _)

/-- Helper: filtering a mapped list filters the preimages. -/
theorem filter_map_comm {α β : Type} (f : α → β) (p : β → Bool) (l : List α) :
    (l.map f).filter p = (l.filter (fun a => p (f a))).map f := by
  induction l with
  | nil => rfl
  | cons x xs ih =>
    simp only [List.map_cons, List.filter_cons]
    by_cases hp : p (f x) = true
    · rw [if_pos hp, if_pos hp, List.map_cons, ih]
    · rw [if_neg hp, if_neg hp, ih]

/-- Helper: filtering distributes over flatMap. -/
theorem filter_flatMap {α β : Type} (f : α → List β) (p : β → Bool) (l : List α) :
    (l.flatMap f).filter p = l.flatMap (fun a => (f a).filter p) := by
  induction l with
  | nil => rfl
  | cons x xs ih => simp only [List.flatMap_cons, List.filter_append, ih]

/-- Helper: flatMap respects pointwise equal bodies. -/
theorem flatMap_congrFun {α β : Type} (f g : α → List β) (l : List α)
    (h : ∀ a, f a = g a) : l.flatMap f = l.flatMap g := by
  rw [funext h]

/-- Helper: a flatMap of conditional singletons is a map of the filter. -/
theorem flatMap_if_single {α β : Type} (q : α → Bool) (h : α → β) (l : List α) :
    (l.flatMap (fun a => if q a then [h a] else [])) = (l.filter q).map h := by
  induction l with
  | nil => rfl
  | cons x xs ih =>
    simp only [List.flatMap_cons, List.filter_cons]
    by_cases hq : q x = true
    · rw [if_pos hq, if_pos hq, List.map_cons, ih]
      rfl
    · rw [if_neg hq, if_neg hq, ih]
      rfl

/-- Helper: in a duplicate-free list, a filter whose predicate singles out
one member returns exactly that member. -/
theorem filter_eq_singleton {α : Type} (l : List α) (p : α → Bool) (c : α)
    (hnd : l.Nodup) (hc : c ∈ l) (hp : p c = true)
    (huniq : ∀ x ∈ l, p x = true → x = c) : l.filter p = [c] := by
  induction l with
  | nil => cases hc
  | cons x xs ih =>
    rw [List.nodup_cons] at hnd
    by_cases hxc : x = c
    · subst hxc
      rw [List.filter_cons, if_pos hp]
      have hx : xs.filter p = [] := by
        rw [List.filter_eq_nil_iff]
        intro a ha hpa
        have hax := huniq a (List.mem_cons_of_mem _ ha) hpa
        exact hnd.1 (hax ▸ ha)
      rw [hx]
    · have hcx : c ∈ xs := by
        rcases List.mem_cons.mp hc with h1 | h1
        · exact absurd h1.symm hxc
        · exact h1
      have hpx : ¬ p x = true := fun hpc =>
        hxc (huniq x (List.mem_cons_self x xs) hpc)
      rw [List.filter_cons, if_neg hpx]
      exact ih hnd.2 hcx (fun a ha hpa => huniq a (List.mem_cons_of_mem _ ha) hpa)

/-- Helper: every joined risk row carries the name and id of one stored
client of the logged-in therapist. -/
theorem joinedRiskRows_mem (db : Db) (t : String) (r : RiskRow)
    (h : r ∈ joinedRiskRows db t) :
    ∃ c, c ∈ db.clients ∧ c.therapist_id = t ∧ r.name = c.name ∧ r.cid = c.id := by
  unfold joinedRiskRows at h
  obtain ⟨s, _, hr⟩ := List.mem_flatMap.mp h
  obtain ⟨c, hc, heq⟩ := List.mem_map.mp hr
  have h2 := List.mem_filter.mp hc
  have hb := h2.2
  simp only [Bool.and_eq_true, beq_iff_eq] at hb
  refine ⟨c, h2.1, hb.2, ?_, ?_⟩
  · rw [← heq]; rfl
  · rw [← heq]; rfl

/-- Helper: with unique client ids and (within the therapist) unique client
names, the joined risk rows carrying one client name are exactly the images
of that client's notes. -/
theorem joinedRiskRows_filter_name (db : Db) (t : String) (c : ClientRow)
    (hc : c ∈ db.clients) (ht : c.therapist_id = t)
    (hnd : (db.clients.map (fun x => x.id)).Nodup)
    (hnames : ∀ c1 ∈ db.clients, ∀ c2 ∈ db.clients,
        c1.therapist_id = t → c2.therapist_id = t → c1.name = c2.name → c1 = c2) :
    (joinedRiskRows db t).filter (fun r => r.name == c.name) =
      (clientNotes db.soap_notes c.id).map (fun s => riskRowOf c s) := by
  have hinj := List.inj_on_of_nodup_map hnd
  have hndl : db.clients.Nodup := List.Nodup.of_map _ hnd
  unfold joinedRiskRows clientNotes
  rw [filter_flatMap]
  have hbody : ∀ s : SoapRow,
      ((db.clients.filter (fun x => x.id == s.client_id && x.therapist_id == t)).map
          (fun x => riskRowOf x s)).filter (fun r => r.name == c.name) =
        (if s.client_id == c.id then [riskRowOf c s] else []) := by
    intro s
    rw [filter_map_comm, List.filter_filter]
    by_cases hs : (s.client_id == c.id) = true
    · have hseq : s.client_id = c.id := beq_iff_eq.mp hs
      rw [if_pos hs]
      have hone : db.clients.filter (fun a =>
          (riskRowOf a s).name == c.name && (a.id == s.client_id && a.therapist_id == t))
          = [c] := by
        apply filter_eq_singleton _ _ _ hndl hc
        · simp [riskRowOf, hseq, ht]
        · intro x _ hx
          simp only [riskRowOf, Bool.and_eq_true, beq_iff_eq] at hx
          exact hinj ‹x ∈ db.clients› hc (hx.2.1.trans hseq)
      rw [hone]
      rfl
    · rw [if_neg hs]
      have hnone : db.clients.filter (fun a =>
          (riskRowOf a s).name == c.name && (a.id == s.client_id && a.therapist_id == t))
          = [] := by
        rw [List.filter_eq_nil_iff]
        intro a ha hpa
        simp only [riskRowOf, Bool.and_eq_true, beq_iff_eq] at hpa
        have hac : a = c := hnames a ha c hc hpa.2.2 ht hpa.1
        exact hs (beq_iff_eq.mpr (by rw [← hpa.2.1, hac]))
      rw [hnone]
      rfl
  rw [flatMap_congrFun _ _ _ hbody, flatMap_if_single]

/-- Helper: among joined risk rows, carrying a client's id is the same as
carrying its name, when ids are unique and names unique per therapist. -/
theorem riskRow_cid_iff_name (db : Db) (t : String) (c : ClientRow)
    (hc : c ∈ db.clients) (ht : c.therapist_id = t)
    (hnd : (db.clients.map (fun x => x.id)).Nodup)
    (hnames : ∀ c1 ∈ db.clients, ∀ c2 ∈ db.clients,
        c1.therapist_id = t → c2.therapist_id = t → c1.name = c2.name → c1 = c2)
    (r : RiskRow) (hr : r ∈ joinedRiskRows db t) :
    r.cid = c.id ↔ r.name = c.name := by
  have hinj := List.inj_on_of_nodup_map hnd
  obtain ⟨x, hx, hxt, hname, hcid⟩ := joinedRiskRows_mem db t r hr
  constructor
  · intro h
    rw [hcid] at h
    have hxc := hinj hx hc h
    rw [hname, hxc]
  · intro h
    rw [hname] at h
    have hxc := hnames x hx c hc hxt ht h
    rw [hcid, hxc]

/-- Helper: the considered rows of one client name are the image of the
client's most recent note. -/
theorem riskConsidered_filter_name (db : Db) (t : String) (c : ClientRow)
    (hc : c ∈ db.clients) (ht : c.therapist_id = t)
    (hnd : (db.clients.map (fun x => x.id)).Nodup)
    (hnames : ∀ c1 ∈ db.clients, ∀ c2 ∈ db.clients,
        c1.therapist_id = t → c2.therapist_id = t → c1.name = c2.name → c1 = c2) :
    (riskConsidered db t).filter (fun r => r.name == c.name) =
      ((mostRecentNote db.soap_notes c.id).map (fun s => riskRowOf c s)).toList := by
  rw [riskConsidered, dedupByName_filter, find_eq_filterHead, filter_sortDescBy,
    joinedRiskRows_filter_name db t c hc ht hnd hnames,
    map_sortDescBy (fun s => s.date) (fun r => r.date) (fun s => riskRowOf c s)
      (fun a => rfl),
    List.head?_map, head_sortDescBy]
  rfl

/-!
Claim theorems.
-/

/-- C3 counterexample: for goal lists A,B / B,C / B the aggregation counts
B three times and A and C once each over three distinct names, but the
result is ordered descending by frequency, not ascending. -/
theorem goalFrequency_counterexample :
    (goalFrequency [("A, B"), ("B, C"), ("B")] = [(("B"), 3), (("A"), 1), (("C"), 1)])
  ∧ (decide (List.Pairwise (fun p q : String × Nat => p.2 ≤ q.2)
        (goalFrequency [("A, B"), ("B, C"), ("B")])) = false) := by decide

/-- C3 amended: the aggregation splits on commas, trims, drops empty
tokens and counts occurrences across the filtered sessions, and the result
is sorted descending by frequency. -/
theorem goalFrequency_desc_counts (goalStrs : List String) :
    ((goalFrequency goalStrs).Pairwise (fun p q => q.2 ≤ p.2))
  ∧ (∀ p, p ∈ goalFrequency goalStrs →
        p.2 = (goalStrs.flatMap goalTokens).count p.1)
  ∧ (∀ v, (∃ n, (v, n) ∈ goalFrequency goalStrs) ↔ v ∈ goalStrs.flatMap goalTokens) := by
  refine ⟨sorted_sortDescBy _ _, ?_, ?_⟩
  · intro p hp
    have hp' : p ∈ ((uniqueFirst (goalStrs.flatMap goalTokens)).map
        (fun v => (v, (goalStrs.flatMap goalTokens).count v))) :=
      (mem_sortDescBy _ _ p).mp hp
    obtain ⟨v, _, hv⟩ := List.mem_map.mp hp'
    rw [← hv]
  · intro v
    constructor
    · rintro ⟨n, hn⟩
      have hn' : (v, n) ∈ ((uniqueFirst (goalStrs.flatMap goalTokens)).map
          (fun v => (v, (goalStrs.flatMap goalTokens).count v))) :=
        (mem_sortDescBy _ _ _).mp hn
      obtain ⟨w, hw, hv⟩ := List.mem_map.mp hn'
      have hwv : w = v := congrArg Prod.fst hv
      rw [← hwv]
      exact (mem_uniqueFirst _ _).mp hw
    · intro hv
      refine ⟨(goalStrs.flatMap goalTokens).count v, ?_⟩
      exact (mem_sortDescBy _ _ _).mpr
        (List.mem_map.mpr ⟨v, (mem_uniqueFirst _ _).mpr hv, rfl⟩)

/-- C3 witness: the amended statement evaluated on the spec example. -/
theorem goalFrequency_desc_counts_witness :
    ((goalFrequency [("A, B"), ("B, C"), ("B")]).Pairwise
        (fun p q : String × Nat => q.2 ≤ p.2))
  ∧ (3 = (([("A, B"), ("B, C"), ("B")] : List String).flatMap goalTokens).count ("B")) :=
  ⟨(goalFrequency_desc_counts [("A, B"), ("B, C"), ("B")]).1,
   (goalFrequency_desc_counts [("A, B"), ("B, C"), ("B")]).2.1 (("B"), 3) (by decide)⟩

/-- C1 counterexample: client 2 of therapist t has a flagged most recent
note, yet the scan reports no row for client 2, because the other client
with the same name shadows it after the name deduplication. -/
theorem riskScan_counterexample :
    ((dbScanCex.clients.filter (fun c => c.id == 2 && c.therapist_id == ("t"))).length = 1)
  ∧ ((mostRecentNote dbScanCex.soap_notes 2).map (fun s => riskFlag s.assessment)
        = some true)
  ∧ ((riskScan dbScanCex ("t")).filter (fun r => r.cid == 2) = []) := by decide

/-- C1 amended: provided the therapist's clients have pairwise distinct
names (and ids are unique), the scan flags a client exactly when its most
recent note (maximal date, ties to the earliest stored row) has an
assessment containing a risk keyword. -/
theorem riskScan_latest_note_iff (db : Db) (t : String) (c : ClientRow)
    (hc : c ∈ db.clients) (ht : c.therapist_id = t)
    (hnd : (db.clients.map (fun x => x.id)).Nodup)
    (hnames : ∀ c1 ∈ db.clients, ∀ c2 ∈ db.clients,
        c1.therapist_id = t → c2.therapist_id = t → c1.name = c2.name → c1 = c2) :
    (∃ r ∈ riskScan db t, r.cid = c.id) ↔
      (∃ s, mostRecentNote db.soap_notes c.id = some s ∧ riskFlag s.assessment = true) := by
  have h4 := riskConsidered_filter_name db t c hc ht hnd hnames
  constructor
  · rintro ⟨r, hrscan, hcid⟩
    have hrK : r ∈ riskConsidered db t := List.mem_of_mem_filter hrscan
    have hflag : riskFlag r.assessment = true := (List.mem_filter.mp hrscan).2
    have hrJ : r ∈ joinedRiskRows db t :=
      (mem_sortDescBy _ _ r).mp (mem_dedupByName _ r hrK)
    have hname : r.name = c.name :=
      (riskRow_cid_iff_name db t c hc ht hnd hnames r hrJ).mp hcid
    have hrF : r ∈ (riskConsidered db t).filter (fun x => x.name == c.name) :=
      List.mem_filter.mpr ⟨hrK, beq_iff_eq.mpr hname⟩
    rw [h4] at hrF
    cases ho : mostRecentNote db.soap_notes c.id with
    | none =>
      rw [ho] at hrF
      cases hrF
    | some s =>
      rw [ho] at hrF
      have hre : r = riskRowOf c s := by simpa using hrF
      refine ⟨s, rfl, ?_⟩
      rw [hre] at hflag
      exact hflag
  · rintro ⟨s, hs, hflag⟩
    have hmem : riskRowOf c s ∈ (riskConsidered db t).filter (fun x => x.name == c.name) := by
      rw [h4, hs]
      simp
    have hK := List.mem_of_mem_filter hmem
    refine ⟨riskRowOf c s, ?_, rfl⟩
    exact List.mem_filter.mpr ⟨hK, hflag⟩

/-- C1 witness: the amended equivalence evaluated for the lone client Bob,
whose newest note is clean despite an older flagged note. -/
theorem riskScan_latest_note_iff_witness :
    (∃ r ∈ riskScan dbScanW ("t"), r.cid = 1) ↔
      (∃ s, mostRecentNote dbScanW.soap_notes 1 = some s ∧ riskFlag s.assessment = true) :=
  riskScan_latest_note_iff dbScanW ("t")
    ⟨1, ("Bob"), ("2000-01-01"), (""), (""), ("Active"), none, ("t")⟩
    (by decide) rfl (by decide) (by decide)

/-- C9: for two distinct same-named clients of one therapist, the scan
considers at most one of them, and hence flags at most one of them. -/
theorem riskScan_dedups_by_name (db : Db) (t : String) (c1 c2 : ClientRow)
    (h1 : c1 ∈ db.clients) (h2 : c2 ∈ db.clients)
    (hnd : (db.clients.map (fun x => x.id)).Nodup)
    (hne : c1.id ≠ c2.id) (hname : c1.name = c2.name) :
    (¬ ((∃ r ∈ riskConsidered db t, r.cid = c1.id)
        ∧ (∃ r ∈ riskConsidered db t, r.cid = c2.id)))
  ∧ (¬ ((∃ r ∈ riskScan db t, r.cid = c1.id)
        ∧ (∃ r ∈ riskScan db t, r.cid = c2.id))) := by
  have hinj := List.inj_on_of_nodup_map hnd
  have key : ∀ r1, r1 ∈ riskConsidered db t → ∀ r2, r2 ∈ riskConsidered db t →
      r1.cid = c1.id → r2.cid = c2.id → False := by
    intro r1 hr1 r2 hr2 e1 e2
    have hJ1 : r1 ∈ joinedRiskRows db t :=
      (mem_sortDescBy _ _ r1).mp (mem_dedupByName _ r1 hr1)
    have hJ2 : r2 ∈ joinedRiskRows db t :=
      (mem_sortDescBy _ _ r2).mp (mem_dedupByName _ r2 hr2)
    obtain ⟨x1, hx1, _, hn1, hc1'⟩ := joinedRiskRows_mem db t r1 hJ1
    obtain ⟨x2, hx2, _, hn2, hc2'⟩ := joinedRiskRows_mem db t r2 hJ2
    have hx1c : x1 = c1 := hinj hx1 h1 (by rw [← hc1', e1])
    have hx2c : x2 = c2 := hinj hx2 h2 (by rw [← hc2', e2])
    have hnn : r2.name = r1.name := by
      rw [hn1, hn2, hx1c, hx2c, hname]
    have hfil := dedupByName_filter
      (sortDescBy (fun r => r.date) (joinedRiskRows db t)) r1.name
    have m1 : r1 ∈ (riskConsidered db t).filter (fun x => x.name == r1.name) :=
      List.mem_filter.mpr ⟨hr1, beq_iff_eq.mpr rfl⟩
    have m2 : r2 ∈ (riskConsidered db t).filter (fun x => x.name == r1.name) :=
      List.mem_filter.mpr ⟨hr2, beq_iff_eq.mpr hnn⟩
    rw [riskConsidered, hfil] at m1 m2
    cases hfind : (sortDescBy (fun r => r.date) (joinedRiskRows db t)).find?
        (fun r => r.name == r1.name) with
    | none =>
      rw [hfind] at m1
      cases m1
    | some z =>
      rw [hfind] at m1 m2
      have hz1 : r1 = z := by simpa using m1
      have hz2 : r2 = z := by simpa using m2
      apply hne
      rw [← e1, ← e2, hz1, hz2]
  constructor
  · rintro ⟨⟨r1, hr1, e1⟩, ⟨r2, hr2, e2⟩⟩
    exact key r1 hr1 r2 hr2 e1 e2
  · rintro ⟨⟨r1, hr1, e1⟩, ⟨r2, hr2, e2⟩⟩
    exact key r1 (List.mem_of_mem_filter hr1) r2 (List.mem_of_mem_filter hr2) e1 e2

/-- C9 witness: the two same-named clients of the fixture are never both
considered, and never both flagged. -/
theorem riskScan_dedups_by_name_witness :
    (¬ ((∃ r ∈ riskConsidered dbScanCex ("t"), r.cid = 1)
        ∧ (∃ r ∈ riskConsidered dbScanCex ("t"), r.cid = 2)))
  ∧ (¬ ((∃ r ∈ riskScan dbScanCex ("t"), r.cid = 1)
        ∧ (∃ r ∈ riskScan dbScanCex ("t"), r.cid = 2))) :=
  riskScan_dedups_by_name dbScanCex ("t")
    ⟨1, ("Bob"), ("2000-01-01"), (""), (""), ("Active"), none, ("t")⟩
    ⟨2, ("Bob"), ("2001-02-02"), (""), (""), ("Active"), none, ("t")⟩
    (by decide) (by decide) (by decide) (by decide) rfl

/-- C2: deleting a client removes exactly the rows referencing that client
id from each of the eight dependent tables and the clients row itself, and
keeps every row of any other client (and the client-independent tables). -/
theorem deleteClient_cascade (db : Db) (cid : Nat) :
    (∀ s : SessionRow, s ∈ (deleteClient db cid).sessions ↔
        s ∈ db.sessions ∧ (s.client_id == cid) = false)
  ∧ (∀ s : SoapRow, s ∈ (deleteClient db cid).soap_notes ↔
        s ∈ db.soap_notes ∧ (s.client_id == cid) = false)
  ∧ (∀ s : ClientGoalRow, s ∈ (deleteClient db cid).client_goals ↔
        s ∈ db.client_goals ∧ (s.client_id == cid) = false)
  ∧ (∀ s : DiagRow, s ∈ (deleteClient db cid).diagnostic_history ↔
        s ∈ db.diagnostic_history ∧ (s.client_id == cid) = false)
  ∧ (∀ s : FileRow, s ∈ (deleteClient db cid).client_files ↔
        s ∈ db.client_files ∧ (s.client_id == cid) = false)
  ∧ (∀ s : CheckinRow, s ∈ (deleteClient db cid).therapist_checkin ↔
        s ∈ db.therapist_checkin ∧ (s.client_id == cid) = false)
  ∧ (∀ s : ResourceRow, s ∈ (deleteClient db cid).session_resources ↔
        s ∈ db.session_resources ∧ (s.client_id == cid) = false)
  ∧ (∀ s : PlanRow, s ∈ (deleteClient db cid).session_plans ↔
        s ∈ db.session_plans ∧ (s.client_id == cid) = false)
  ∧ (∀ c : ClientRow, c ∈ (deleteClient db cid).clients ↔
        c ∈ db.clients ∧ (c.id == cid) = false)
  ∧ (deleteClient db cid).users = db.users
  ∧ (deleteClient db cid).goals = db.goals
  ∧ (deleteClient db cid).sites = db.sites := by
  refine ⟨?_, ?_, ?_, ?_, ?_, ?_, ?_, ?_, ?_, rfl, rfl, rfl⟩ <;>
    intro s <;> simp [deleteClient, List.mem_filter]

/-- C4 counterexample: logging diagnosis MDD for the client whose stored
diagnosis is Old leaves the client diagnosis at Old while the history row
carries MDD, so the claimed two-table write does not happen. -/
theorem logDiagnosis_counterexample :
    ((logDiagnosis dbDiag 1 1 5 ("F33.2") ("MDD") ("n")).clients.map
        (fun c => c.diagnosis) = [("Old")])
  ∧ ((logDiagnosis dbDiag 1 1 5 ("F33.2") ("MDD") ("n")).diagnostic_history.map
        (fun r => r.diagnosis_description) = [("MDD")])
  ∧ ((("Old") == ("MDD")) = false) := by decide

/-- C4 amended: logging a diagnosis inserts one diagnostic-history row and
leaves the clients table (hence the parent diagnosis field) unchanged. -/
theorem logDiagnosis_single_table (db : Db) (nextId cid dt : Nat)
    (code desc notes : String) :
    ((logDiagnosis db nextId cid dt code desc notes).clients = db.clients)
  ∧ (code ≠ ("") → desc ≠ ("") →
      (logDiagnosis db nextId cid dt code desc notes).diagnostic_history =
        db.diagnostic_history ++ [⟨nextId, cid, dt, code, desc, notes⟩]) := by
  constructor
  · unfold logDiagnosis; split <;> rfl
  · intro h1 h2
    have hc : (code != ("") && desc != ("")) = true := by simp [h1, h2]
    unfold logDiagnosis
    rw [if_pos hc]

/-- C4 witness: the amended statement evaluated at the fixture. -/
theorem logDiagnosis_single_table_witness :
    ((logDiagnosis dbDiag 1 1 5 ("F33.2") ("MDD") ("n")).clients = dbDiag.clients)
  ∧ (logDiagnosis dbDiag 1 1 5 ("F33.2") ("MDD") ("n")).diagnostic_history =
      dbDiag.diagnostic_history ++ [⟨1, 1, 5, ("F33.2"), ("MDD"), ("n")⟩] :=
  ⟨(logDiagnosis_single_table dbDiag 1 1 5 ("F33.2") ("MDD") ("n")).1,
   (logDiagnosis_single_table dbDiag 1 1 5 ("F33.2") ("MDD") ("n")).2
     (by decide) (by decide)⟩

/-- C5 counterexample: deleting template G removes the goals row but the
client-goal row referencing G survives, so the claimed value cascade does
not happen. -/
theorem deleteGoalTemplate_counterexample :
    ((deleteGoalTemplate dbTmpl ("G")).goals = [])
  ∧ ((deleteGoalTemplate dbTmpl ("G")).client_goals = [⟨1, 1, ("G")⟩]) := by decide

/-- C5 amended: deleting a goal template removes exactly the goals rows with
that description and leaves the client_goals table unchanged. -/
theorem deleteGoalTemplate_frame (db : Db) (desc : String) :
    ((deleteGoalTemplate db desc).client_goals = db.client_goals)
  ∧ (∀ g : GoalRow, g ∈ (deleteGoalTemplate db desc).goals ↔
      g ∈ db.goals ∧ (g.description == desc) = false) := by
  refine ⟨rfl, ?_⟩
  intro g
  simp [deleteGoalTemplate, List.mem_filter]

/-- C6 counterexample: assigning an already-assigned goal description ends
in an escaped IntegrityError (not a surfaced message), with the table left
unchanged. -/
theorem assignGoal_counterexample :
    (isHandled (assignGoalAction [⟨1, 1, ("G")⟩] 2 1 ("G")) = false)
  ∧ (outcomeState (assignGoalAction [⟨1, 1, ("G")⟩] 2 1 ("G")) = [⟨1, 1, ("G")⟩]) := by decide

/-- C6 amended: a duplicate (client, description) pair is rejected without
creating a row, but the IntegrityError propagates unhandled from the
assign-goal handler; only the signup handler catches its duplicate error
and surfaces a message. -/
theorem clientGoal_duplicate_raises (tbl : List ClientGoalRow) (nextId cid : Nat) (d : String)
    (hdup : tbl.any (fun r => r.client_id == cid && r.goal_description == d) = true) :
    (assignGoalAction tbl nextId cid d = ActionOutcome.raised tbl DbErr.dup)
  ∧ (∀ users : List UserRow, ∀ u p : String,
      users.any (fun r => r.username == u) = true →
      (u == ("")) = false → (p == ("")) = false →
      createAccountAction users u p =
        ActionOutcome.handled users ("Username already taken.")) := by
  constructor
  · simp [assignGoalAction, insertClientGoalRow, hdup]
  · intro users u p hdupU hu hp
    simp [createAccountAction, insertUserRow, hdupU, hu, hp]

/-- C6 witness: the amended statement evaluated at concrete tables. -/
theorem clientGoal_duplicate_raises_witness :
    (assignGoalAction [⟨1, 1, ("G")⟩] 2 1 ("G") =
        ActionOutcome.raised [⟨1, 1, ("G")⟩] DbErr.dup)
  ∧ (createAccountAction [⟨("alice"), ("pw1")⟩] ("alice") ("x") =
        ActionOutcome.handled [⟨("alice"), ("pw1")⟩] ("Username already taken.")) :=
  ⟨(clientGoal_duplicate_raises [⟨1, 1, ("G")⟩] 2 1 ("G") (by decide)).1,
   (clientGoal_duplicate_raises [⟨1, 1, ("G")⟩] 2 1 ("G") (by decide)).2
      [⟨("alice"), ("pw1")⟩] ("alice") ("x") (by decide) (by decide) (by decide)⟩

/-- C7: login succeeds with the entered username as session identity exactly
when some stored record matches username and password by case-sensitive
string equality. -/
theorem login_exact_match (users : List UserRow) (u p : String) :
    loginAttempt users u p = some u ↔
      ∃ r, r ∈ users ∧ r.username = u ∧ r.password = p := by
  unfold loginAttempt loginQuery
  cases hf : users.filter (fun r => r.username == u && r.password == p) with
  | nil =>
    simp only [List.head?_nil]
    constructor
    · intro h; cases h
    · rintro ⟨r, hr, h1, h2⟩
      have hmem : r ∈ users.filter (fun r => r.username == u && r.password == p) :=
        List.mem_filter.mpr ⟨hr, by simp [h1, h2]⟩
      rw [hf] at hmem
      cases hmem
  | cons x xs =>
    simp only [List.head?_cons]
    constructor
    · intro _
      have hx : x ∈ users.filter (fun r => r.username == u && r.password == p) := by
        rw [hf]; exact List.mem_cons_self x xs
      have hm := List.mem_filter.mp hx
      have hb := hm.2
      simp only [Bool.and_eq_true, beq_iff_eq] at hb
      exact ⟨x, hm.1, hb.1, hb.2⟩
    · intro _; trivial

/-- C7 witness: with the stored record alice with password pw1, login
succeeds for the right password and fails for a wrong one. -/
theorem login_exact_match_witness :
    (loginAttempt [⟨("alice"), ("pw1")⟩] ("alice") ("pw1") = some ("alice"))
  ∧ (loginAttempt [⟨("alice"), ("pw1")⟩] ("alice") ("wrong") = none) :=
  ⟨(login_exact_match [⟨("alice"), ("pw1")⟩] ("alice") ("pw1")).mpr
      ⟨⟨("alice"), ("pw1")⟩, by decide, rfl, rfl⟩,
   by decide⟩

/-- C8: an upload is rejected before any write exactly when its size
strictly exceeds 2 MiB; otherwise one client_files row is stored. -/
theorem upload_size_gate (files : List FileRow) (nextId cid : Nat) (up : Upload)
    (today : Nat) :
    (2 * 1024 * 1024 < up.size →
      uploadClientFile files nextId cid up today =
        Except.error ("File size exceeds 2MB limit."))
  ∧ (up.size ≤ 2 * 1024 * 1024 →
      uploadClientFile files nextId cid up today =
        Except.ok (files ++ [⟨nextId, cid, up.name, up.filetype, up.data, today⟩])) := by
  constructor
  · intro h; unfold uploadClientFile; rw [if_pos h]
  · intro h; unfold uploadClientFile; rw [if_neg (Nat.not_lt.mpr h)]

/-- C8 witness: a file of 2 MiB plus one byte is rejected and a file of
exactly 2 MiB is stored. -/
theorem upload_size_gate_witness :
    (uploadClientFile [] 1 7 ⟨("a.png"), ("image/png"), 2 * 1024 * 1024 + 1, ("d")⟩ 0 =
        Except.error ("File size exceeds 2MB limit."))
  ∧ (uploadClientFile [] 1 7 ⟨("a.png"), ("image/png"), 2 * 1024 * 1024, ("d")⟩ 0 =
        Except.ok [⟨1, 7, ("a.png"), ("image/png"), ("d"), 0⟩]) :=
  ⟨(upload_size_gate [] 1 7 ⟨("a.png"), ("image/png"), 2 * 1024 * 1024 + 1, ("d")⟩ 0).1
      (by decide),
   (upload_size_gate [] 1 7 ⟨("a.png"), ("image/png"), 2 * 1024 * 1024, ("d")⟩ 0).2
      (by decide)⟩

/-- C10: a session saved through the New Session entry always references a
client of the logged-in therapist whose stored status is Active. -/
theorem saveSession_requires_active (db : Db) (nextId : Nat) (t nm : String) (d : Nat)
    (timeStr : String) (num rating : Nat) (goalsSel : List String) (notes : String)
    (db' : Db)
    (h : saveSession db nextId t nm d timeStr num rating goalsSel notes = some db') :
    ∃ c, c ∈ db.clients ∧ c.therapist_id = t ∧ c.status = ("Active") ∧
      db'.sessions = db.sessions ++
        [⟨nextId, c.id, d, num, String.intercalate (", ") goalsSel, notes, rating, t,
          timeStr⟩] := by
  revert h
  unfold saveSession
  cases hl : clientMapLookup (activeClients db t) nm with
  | none => intro h; cases h
  | some cid =>
    intro h
    obtain ⟨c, hc, hid, _⟩ := clientMapLookup_mem _ _ _ hl
    have h2 := List.mem_filter.mp hc
    have hb := h2.2
    simp only [Bool.and_eq_true, beq_iff_eq] at hb
    refine ⟨c, h2.1, hb.1, hb.2, ?_⟩
    cases h
    rw [hid]

/-- C10 witness: saving a session for the Active client Bob records a
session row for that client. -/
theorem saveSession_requires_active_witness :
    ∃ c, c ∈ dbActive.clients ∧ c.therapist_id = ("t") ∧ c.status = ("Active") ∧
      dbActiveAfter.sessions = dbActive.sessions ++
        [⟨1, c.id, 3, 1, String.intercalate (", ") [("G")], ("n"), 8, ("t"), ("10:00")⟩] :=
  saveSession_requires_active dbActive 1 ("t") ("Bob") 3 ("10:00") 1 8 [("G")] ("n")
    dbActiveAfter (by decide)

end TheraTrack
